import Mathlib

/-!
Verification development for the `cocoindex_code` package: a shallow
embedding in Lean 4 of its configuration resolution (`config.py`), embedder
construction (`shared.py`, `embedder.py`), per-file indexing (`indexer.py`)
and vector query engine (`query.py`), together with theorems settling the
specification's claims about them.

Modelling conventions:
* filesystem directories are lists of path components from the filesystem
  root (`[]` is the root directory `/`), and a filesystem is a decidable
  predicate telling which directory contains which named entry;
* Python `os.environ` is a record of `Option String` fields, one per
  environment variable the code reads; `none` models an unset variable;
* machine floats of the embedding vectors are modelled as rationals;
* external collaborators (the torch CUDA probe, `Path.resolve`, the
  sentence-transformers encoder, the text splitter and language detector)
  are parameters of the definitions that call them.
-/

/-- A directory, as the list of its path components ordered innermost
first; `[]` is the filesystem root, whose parent is itself, and the parent
of any other directory is the tail of its component list. -/
abbrev Dir := List String

/-- An abstract filesystem: `hasEntry d m` says directory `d` contains an
entry named `m` (models Python `(current / m).exists()`). -/
structure FileSystem where
  hasEntry : Dir → String → Bool

/-- Embeds `config._find_root_with_marker`: walk up from `start`, return the
first directory containing any of `markers`; at the filesystem root, whose
parent equals itself, the loop stops and returns `none`. -/
def findRootWithMarker (fs : FileSystem) (markers : List String) (current : Dir) :
    Option Dir :=
  if markers.any (fun m => fs.hasEntry current m) then some current
  else
    match current with
    | [] => none
    | _ :: parent => findRootWithMarker fs markers parent

/-- The prior-index marker directory name (`.cocoindex_code`), from
`config._discover_codebase_root`. -/
def INDEX_MARKER : String := ".cocoindex_code"

/-- The recognized project-root markers, from
`config._discover_codebase_root`. -/
def PROJECT_MARKERS : List String :=
  [".git", "pyproject.toml", "package.json", "Cargo.toml", "go.mod"]

/-- Embeds `config._discover_codebase_root`: first walk upward looking for
the prior-index marker, then for any project-root marker, else fall back to
the current working directory. -/
def discoverCodebaseRoot (fs : FileSystem) (cwd : Dir) : Dir :=
  match findRootWithMarker fs [INDEX_MARKER] cwd with
  | some root => root
  | none =>
    match findRootWithMarker fs PROJECT_MARKERS cwd with
    | some root => root
    | none => cwd

/-- The environment variables read by `Config.from_env` and
`config._detect_device`; `none` models an unset variable. -/
structure Env where
  root_path : Option String
  embedding_model : Option String
  device : Option String
  trust_remote_code : Option String

/-- Python truthiness of an optional string: `None` and `""` are falsy. -/
def truthy (o : Option String) : Bool :=
  match o with
  | none => false
  | some s => s ≠ ""

/-- Embeds `config._detect_device`. `torchProbe` models the external torch
import: `none` means the import fails, `some cuda` means it succeeds and
`torch.cuda.is_available()` returns `cuda`. -/
def detectDevice (env : Env) (torchProbe : Option Bool) : String :=
  if truthy env.device then env.device.getD ""
  else
    match torchProbe with
    | some cuda => if cuda then "cuda" else "cpu"
    | none => "cpu"

/-- Models Python `str.lower` over the character list of a string (the
library `String.toLower` is definitionally opaque to kernel evaluation). -/
def pyLower (s : String) : String := ⟨s.data.map Char.toLower⟩

/-- Models Python `str.strip` over the character list of a string: drop
leading and trailing whitespace. -/
def pyStrip (s : String) : String :=
  ⟨((s.data.dropWhile Char.isWhitespace).reverse.dropWhile Char.isWhitespace).reverse⟩

/-- Models Python `str.startswith` over character lists. -/
def pyStartsWith (s p : String) : Bool := p.data.isPrefixOf s.data

/-- Models Python string slicing `s[n:]` over character lists. -/
def pyDrop (s : String) (n : Nat) : String := ⟨s.data.drop n⟩

/-- Embeds the membership test of `Config.from_env` for the
trust-remote-code opt-in: `value.lower() in ("1", "true", "yes")`. -/
def isTruthSetting (s : String) : Bool :=
  pyLower s == "1" || pyLower s == "true" || pyLower s == "yes"

/-- The default embedding model of `config.py` (`_DEFAULT_MODEL`). -/
def DEFAULT_MODEL : String := "sbert/jinaai/jina-embeddings-v2-base-code"

/-- Embeds the dataclass `Config` of `config.py`: exactly its fields. -/
structure Config where
  codebase_root_path : Dir
  embedding_model : String
  index_dir : Dir
  device : String
  trust_remote_code : Bool

/-- Embeds the root computation of `Config.from_env`: a truthy
`COCOINDEX_CODE_ROOT_PATH` is resolved by the OS (`resolvePath` models
`Path(...).resolve()`), otherwise discovery runs. -/
def configRoot (env : Env) (resolvePath : String → Dir) (fs : FileSystem)
    (cwd : Dir) : Dir :=
  if truthy env.root_path then resolvePath (env.root_path.getD "")
  else discoverCodebaseRoot fs cwd

/-- Embeds `Config.from_env`, parameterized by the external collaborators:
the OS path resolver, the filesystem, the working directory and the torch
probe. -/
def configFromEnv (env : Env) (resolvePath : String → Dir) (fs : FileSystem)
    (cwd : Dir) (torchProbe : Option Bool) : Config :=
  let root := configRoot env resolvePath fs cwd
  { codebase_root_path := root
    embedding_model := env.embedding_model.getD DEFAULT_MODEL
    index_dir := INDEX_MARKER :: root
    device := detectDevice env torchProbe
    trust_remote_code := isTruthSetting (env.trust_remote_code.getD "") }

/-- The chain of ancestors visited by the upward walk: the directory
itself, then its parent, down to the filesystem root. -/
def ancestors : Dir → List Dir
  | [] => [[]]
  | d@(_ :: parent) => d :: ancestors parent

/-- The model prefix tag that selects the local SentenceTransformer backend
(`SBERT_PREFIX = "sbert/"` in `shared.py`). -/
def SBERT_TAG : String := "sbert/"

/-- Models that define a "query" prompt for asymmetric retrieval
(`_QUERY_PROMPT_MODELS` in `shared.py`). -/
def QUERY_PROMPT_MODELS : List String :=
  ["nomic-ai/nomic-embed-code", "nomic-ai/CodeRankEmbed"]

/-- Models whose custom remote code is known-compatible
(`_KNOWN_REMOTE_CODE_MODELS` in `shared.py`). -/
def KNOWN_REMOTE_CODE_MODELS : List String := ["nomic-ai/CodeRankEmbed"]

/-- Embeds the constructor state of `LocalEmbedder` (`embedder.py`): the
fields set in `__init__`. `normalize_embeddings` defaults to `true`. -/
structure LocalEmbedder where
  model_name_or_path : String
  device : String
  trust_remote_code : Bool
  normalize_embeddings : Bool
  query_prompt_name : Option String
deriving DecidableEq, Repr

/-- The embedder singleton of `shared.py`: either the in-process
`LocalEmbedder` or the remote `LiteLLMEmbedder` (kept abstract, identified
by its model string). -/
inductive Embedder where
  | localBackend : LocalEmbedder → Embedder
  | liteLLM : String → Embedder
deriving DecidableEq, Repr

/-- Embeds the module-level embedder construction of `shared.py`: models
with the `sbert/` tag get a `LocalEmbedder` whose query prompt is `"query"`
exactly for the known asymmetric models and whose trust flag is the config
opt-in OR-ed with membership in the known-remote-code set; other model ids
go to LiteLLM. -/
def mkEmbedder (cfg : Config) : Embedder :=
  if pyStartsWith cfg.embedding_model SBERT_TAG then
    let model_name := pyDrop cfg.embedding_model SBERT_TAG.data.length
    let query_prompt_name : Option String :=
      if QUERY_PROMPT_MODELS.contains model_name then some "query" else none
    let trust := cfg.trust_remote_code || KNOWN_REMOTE_CODE_MODELS.contains model_name
    .localBackend
      { model_name_or_path := model_name
        device := cfg.device
        trust_remote_code := trust
        normalize_embeddings := true
        query_prompt_name := query_prompt_name }
  else .liteLLM cfg.embedding_model

/-- The trust-remote-code flag actually passed to the local backend, when
the configuration selects one. -/
def trustFlagOf : Embedder → Option Bool
  | .localBackend e => some e.trust_remote_code
  | .liteLLM _ => none

/-- The arguments `LocalEmbedder` passes to the external
`SentenceTransformer.encode` call: the observable behaviour of the two
embedding paths of `embedder.py`. -/
structure EncodeArgs where
  texts : List String
  prompt_name : Option String
  normalize_embeddings : Bool
deriving DecidableEq, Repr

/-- Embeds the encode call of `LocalEmbedder.embed` (`embedder.py` lines
76-84): document-side path, no prompt is passed. -/
def LocalEmbedder.embedArgs (e : LocalEmbedder) (texts : List String) : EncodeArgs :=
  { texts := texts
    prompt_name := none
    normalize_embeddings := e.normalize_embeddings }

/-- Embeds the encode call of `LocalEmbedder.embed_query` (`embedder.py`
lines 86-96): query-side path, passes the configured `query_prompt_name`. -/
def LocalEmbedder.embedQueryArgs (e : LocalEmbedder) (texts : List String) :
    EncodeArgs :=
  { texts := texts
    prompt_name := e.query_prompt_name
    normalize_embeddings := e.normalize_embeddings }

/-- Embeds the query-embedding call of `CodebaseQuerier.query` (`query.py`
line 51): `embedder.embed(params.query)` — the document-side `embed`
method, the batching decorator collecting the single text into a
one-element batch. -/
def querierEmbedArgs (e : LocalEmbedder) (queryText : String) : EncodeArgs :=
  e.embedArgs [queryText]

/-- The `max_batch_size=16` literal of the `coco_aio.function` decorator on
`LocalEmbedder.embed` (`embedder.py` line 75). -/
def EMBED_MAX_BATCH_SIZE : Nat := 16

/-- The embedding service's maximum batch size as a function of the
resolved configuration: the decorator literal is fixed at class definition
time, so it is the constant 16 whatever the configuration says. -/
def embedMaxBatchSizeOf (_cfg : Config) : Nat := 16

/-- A chunk produced by the external `RecursiveSplitter`: its text and its
1-indexed inclusive line span (`chunk.start.line`, `chunk.end.line`). -/
structure Chunk where
  text : String
  startLine : Int
  endLine : Int
deriving DecidableEq, Repr

/-- The chunking size constants of `indexer.py`. -/
def CHUNK_SIZE : Nat := 1000

/-- Minimum chunk size constant of `indexer.py`. -/
def MIN_CHUNK_SIZE : Nat := 300

/-- Chunk overlap constant of `indexer.py`. -/
def CHUNK_OVERLAP : Nat := 200

/-- A row of the `code_chunks` table, as declared by `process_file`
(the `CodeChunk` dataclass of `shared.py`/`schema.py`), with the embedding
vector modelled over the rationals. -/
structure CodeChunkRow where
  id : Int
  file_path : String
  language : String
  content : String
  start_line : Int
  end_line : Int
  embedding : List ℚ
deriving DecidableEq, Repr

/-- The input `process_file` receives for one file: its relative path
(`str(file.file_path.path)`), its basename (`file.file_path.path.name`),
and the outcome of `file.read_text()` — `none` models a raised
`UnicodeDecodeError` (a binary, undecodable file). -/
structure FileInput where
  path : String
  name : String
  readResult : Option String
deriving DecidableEq, Repr

/-- An external splitter: given the file content, the three size constants
and the language, returns the chunk list (models
`RecursiveSplitter.split`). -/
abbrev Splitter := String → Nat → Nat → Nat → String → List Chunk

/-- Embeds `process_file` of `indexer.py`, parameterized by the external
collaborators: `hash` models the content-addressed id of
`IdGenerator.next_id` — modelled from the spec: `IdGenerator` lives in the
`cocoindex.resources.id` framework module, not in this repository, and §4.4
specifies it as a deterministic collision-resistant hash of the chunk text
alone — `embed` models the embedding model, `detectLang` models
`detect_code_language`, and `split` the splitter. A `none` read result
(undecodable file) is caught and yields no rows; so does content that is
empty after trimming. Every declared row's id is the hash of that row's
chunk text. -/
def process_file (hash : String → Int) (embed : String → List ℚ)
    (detectLang : String → Option String) (split : Splitter)
    (file : FileInput) : List CodeChunkRow :=
  match file.readResult with
  | none => []
  | some content =>
    if pyStrip content = "" then []
    else
      let rel_path := file.path
      let language := (detectLang file.name).getD "text"
      let chunks := split content CHUNK_SIZE MIN_CHUNK_SIZE CHUNK_OVERLAP language
      chunks.map (fun c =>
        { id := hash c.text
          file_path := rel_path
          language := language
          content := c.text
          start_line := c.startLine
          end_line := c.endLine
          embedding := embed c.text })

/-- The orchestration engine's per-unit memo record: the unit key (the file
path used in `component_subpath("process", path)`), the memoized input
fingerprint (the whole `FileInput`, covering the file content), and the
rows the unit declared. Modelled from the spec: the `memo=True` machinery of
`coco.function`/`coco.mount` and the stale-row pruning live in the external
cocoindex engine (§4.6, §6), not in this repository. -/
abbrev MemoState := List (String × FileInput × List CodeChunkRow)

/-- Runs one memoized unit: a memo hit (same key, same fingerprint) replays
the recorded rows and performs no store writes; otherwise the unit executes
`process_file` and each `declare_row` is one upsert write. Returns the new
memo record and the number of writes performed. -/
def runUnit (proc : FileInput → List CodeChunkRow) (st : MemoState)
    (f : FileInput) : (String × FileInput × List CodeChunkRow) × Nat :=
  match st.lookup f.path with
  | some (fp, rows) =>
    if fp = f then ((f.path, f, rows), 0)
    else ((f.path, f, proc f), (proc f).length)
  | none => ((f.path, f, proc f), (proc f).length)

/-- All row ids declared across a pass's memo state. -/
def declaredIds (st : MemoState) : List Int :=
  st.flatMap (fun e => e.2.2.map (·.id))

/-- One full builder pass over the walked file list (the loop of
`app_main`): every file is mounted as a memoized unit; afterwards the
engine deletes every row id declared by the previous pass but not
re-declared by this one, each deletion counting as one write. Returns the
new memo state and the total number of writes (upserts plus deletes). -/
def runPass (proc : FileInput → List CodeChunkRow) (tree : List FileInput)
    (st : MemoState) : MemoState × Nat :=
  let units := tree.map (runUnit proc st)
  let newState := units.map (·.1)
  let upserts := (units.map (·.2)).sum
  let deletes :=
    ((declaredIds st).filter (fun i => !(declaredIds newState).contains i)).length
  (newState, upserts + deletes)

/-- Dot product of two embedding vectors (componentwise product summed over
the common length). -/
def dot (a b : List ℚ) : ℚ := (List.zipWith (· * ·) a b).sum

/-- The sqlite-vec `vec_distance_cosine` collaborator, modelled for the
unit-norm vectors this store holds: cosine distance is
`1 - dot a b / (‖a‖ * ‖b‖)`, and the embedder L2-normalizes its outputs
(`normalize_embeddings=True`), so the denominator is 1. Every theorem using
this model carries the unit-norm hypotheses explicitly. -/
def vec_distance_cosine (a b : List ℚ) : ℚ := 1 - dot a b

/-- A stored row of the `code_chunks` table as the query engine reads it. -/
structure StoredRow where
  id : Int
  file_path : String
  language : String
  content : String
  start_line : Int
  end_line : Int
  embedding : List ℚ
deriving DecidableEq, Repr

/-- The `QueryResult` dataclass of `schema.py`. -/
structure QueryResult where
  file_path : String
  language : String
  content : String
  start_line : Int
  end_line : Int
  score : ℚ
deriving DecidableEq, Repr

/-- The per-row SELECT expression of `CodebaseQuerier.query`: the row's
columns with `score = 1.0 - vec_distance_cosine(embedding, qvec)`. -/
def rowResult (qvec : List ℚ) (r : StoredRow) : QueryResult :=
  { file_path := r.file_path
    language := r.language
    content := r.content
    start_line := r.start_line
    end_line := r.end_line
    score := 1 - vec_distance_cosine r.embedding qvec }

/-- The comparison of the `ORDER BY vec_distance_cosine(embedding, ?) ASC`
clause. -/
def distLE (qvec : List ℚ) (r s : StoredRow) : Bool :=
  vec_distance_cosine r.embedding qvec ≤ vec_distance_cosine s.embedding qvec

/-- Embeds the SELECT of `CodebaseQuerier.query` (`query.py` lines 59-73)
against a store scan: order all rows ascending by cosine distance to the
query vector, apply `OFFSET`, then `LIMIT`, and map each surviving row to a
`QueryResult` whose score is `1 - distance`. -/
def queryRows (store : List StoredRow) (qvec : List ℚ) (lim off : Nat) :
    List QueryResult :=
  (((store.mergeSort (distLE qvec)).drop off).take lim).map (rowResult qvec)

/-- The connection field of `CodebaseQuerier`: `none` models
`self._conn is None`; a cached live connection is an abstract handle. -/
structure CodebaseQuerier where
  conn : Option Nat
deriving DecidableEq, Repr

/-- Embeds `CodebaseQuerier._get_connection`: with no cached connection, a
missing database file (`dbExists = false`) raises the "Index database not
found" error; otherwise a fresh connection (`fresh`, supplied by sqlite) is
cached and returned. With a cached connection, it is returned with no
existence check. -/
def getConnection (q : CodebaseQuerier) (dbExists : Bool) (fresh : Nat) :
    Except String (Nat × CodebaseQuerier) :=
  match q.conn with
  | none =>
    if dbExists then .ok (fresh, { conn := some fresh })
    else .error "Index database not found"
  | some c => .ok (c, q)

/-- Embeds the connection use of `CodebaseQuerier.query`: the only way the
"index not found" precondition error can surface is `_get_connection`;
returns the querier state after the call. -/
def queryConnStep (q : CodebaseQuerier) (dbExists : Bool) (fresh : Nat) :
    Except String CodebaseQuerier :=
  (getConnection q dbExists fresh).map (·.2)

/-- Embeds `CodebaseQuerier.close`: drops the cached connection. -/
def closeQuerier (_q : CodebaseQuerier) : CodebaseQuerier := { conn := none }

/-- A filesystem with no markers anywhere (used to instantiate discovery at
concrete inputs). -/
def noMarkerFS : FileSystem := { hasEntry := fun _ _ => false }

/-- A filesystem whose directory `/project` contains both the prior-index
marker and the version-control marker, and nothing else: the §8 root
discovery scenario. -/
def bothMarkersFS : FileSystem :=
  { hasEntry := fun d m =>
      d == ["project"] && (m == ".cocoindex_code" || m == ".git") }

/-- An environment selecting the local backend for the asymmetric model
`nomic-ai/CodeRankEmbed`, with the trust-remote-code opt-in unset. -/
def envNomic : Env :=
  { root_path := none
    embedding_model := some "sbert/nomic-ai/CodeRankEmbed"
    device := none
    trust_remote_code := none }

/-- The configuration `Config.from_env` resolves for `envNomic` on an
empty filesystem at the root working directory without torch. -/
def cfgNomic : Config := configFromEnv envNomic (fun _ => []) noMarkerFS [] none

/-- The local embedder `shared.py` constructs for `cfgNomic`. -/
def eNomic : LocalEmbedder :=
  { model_name_or_path := "nomic-ai/CodeRankEmbed"
    device := "cpu"
    trust_remote_code := true
    normalize_embeddings := true
    query_prompt_name := some "query" }

/-- A concrete two-row store of unit-norm embeddings, for instantiating the
query-engine theorems. -/
def storeW : List StoredRow :=
  [{ id := 1, file_path := "a.py", language := "python", content := "alpha",
      start_line := 1, end_line := 2, embedding := [1, 0] },
    { id := 2, file_path := "b.py", language := "python", content := "beta",
      start_line := 3, end_line := 4, embedding := [0, 1] }]

/-- A concrete two-file tree with distinct paths, for instantiating the
builder-pass theorems. -/
def treeW : List FileInput :=
  [{ path := "main.py", name := "main.py", readResult := some "alpha" },
    { path := "utils.py", name := "utils.py", readResult := some "beta" }]

/-- The walk of `_find_root_with_marker` returns exactly the first ancestor
(in walk order) containing one of the markers. -/
theorem findRootWithMarker_eq_find (fs : FileSystem) (markers : List String) :
    ∀ d : Dir, findRootWithMarker fs markers d =
      (ancestors d).find? (fun a => markers.any (fun m => fs.hasEntry a m)) := by
  intro d
  induction d with
  | nil =>
    by_cases h : (markers.any fun m => fs.hasEntry [] m) = true
    · simp [findRootWithMarker, ancestors, h]
    · simp [findRootWithMarker, ancestors, List.find?, h]
  | cons x parent ih =>
    by_cases h : (markers.any fun m => fs.hasEntry (x :: parent) m) = true
    · simp [findRootWithMarker, ancestors, h]
    · simp [findRootWithMarker, ancestors, List.find?_cons, h, ih]

/-- C5: root resolution always yields a value with this precedence: a
truthy environment override is resolved and returned; otherwise the first
ancestor of the working directory holding the prior-index marker; otherwise
the first ancestor holding any recognized project-root marker; otherwise
the working directory itself. In particular, whenever any ancestor holds
the prior-index marker, the returned root holds the prior-index marker —
so a directory with the prior-index marker beats one with only
version-control metadata. -/
theorem c5_root_resolution_precedence (env : Env) (resolvePath : String → Dir)
    (fs : FileSystem) (cwd : Dir) :
    (truthy env.root_path = true →
      configRoot env resolvePath fs cwd = resolvePath (env.root_path.getD ""))
    ∧ (truthy env.root_path = false →
      configRoot env resolvePath fs cwd =
        match (ancestors cwd).find? (fun d => fs.hasEntry d INDEX_MARKER) with
        | some d => d
        | none =>
          match (ancestors cwd).find?
              (fun d => PROJECT_MARKERS.any (fun m => fs.hasEntry d m)) with
          | some d => d
          | none => cwd)
    ∧ (truthy env.root_path = false →
      ∀ d ∈ ancestors cwd, fs.hasEntry d INDEX_MARKER = true →
        fs.hasEntry (configRoot env resolvePath fs cwd) INDEX_MARKER = true) := by
  have hpred : (fun a => [INDEX_MARKER].any fun m => fs.hasEntry a m) =
      (fun d => fs.hasEntry d INDEX_MARKER) := by
    funext a
    simp
  refine ⟨fun ht => ?_, fun hf => ?_, fun hf d hd hmark => ?_⟩
  · simp [configRoot, ht]
  · simp only [configRoot, hf, Bool.false_eq_true, if_false]
    simp only [discoverCodebaseRoot, findRootWithMarker_eq_find, hpred]
  · have hsome : ((ancestors cwd).find? (fun d => fs.hasEntry d INDEX_MARKER)).isSome :=
      List.find?_isSome.mpr ⟨d, hd, hmark⟩
    obtain ⟨r, hr⟩ := Option.isSome_iff_exists.mp hsome
    have hfr : findRootWithMarker fs [INDEX_MARKER] cwd = some r := by
      rw [findRootWithMarker_eq_find, hpred, hr]
    have hcr : configRoot env resolvePath fs cwd = r := by
      simp [configRoot, hf, discoverCodebaseRoot, hfr]
    rw [hcr]
    exact List.find?_some (p := fun d => fs.hasEntry d INDEX_MARKER) hr

/-- Witness for C5: the §8 scenario — `/project` holds both the
prior-index marker and `.git`; discovery from `/project/src/lib` with no
environment override returns a directory holding the prior-index marker. -/
theorem c5_witness :
    truthy (Env.root_path ⟨none, none, none, none⟩) = false
    ∧ ["project"] ∈ ancestors ["lib", "src", "project"]
    ∧ bothMarkersFS.hasEntry ["project"] INDEX_MARKER = true
    ∧ bothMarkersFS.hasEntry
        (configRoot ⟨none, none, none, none⟩ (fun _ => []) bothMarkersFS
          ["lib", "src", "project"]) INDEX_MARKER = true :=
  ⟨by decide, by decide, by decide,
    (c5_root_resolution_precedence ⟨none, none, none, none⟩ (fun _ => [])
        bothMarkersFS ["lib", "src", "project"]).2.2 (by decide) ["project"]
      (by decide) (by decide)⟩

/-- C10: an environment override set to the empty string is treated as
absent — with the device override `""`, device resolution behaves as with
the variable unset (auto-probe, and the default device `"cpu"` when the
probe library is unavailable); with the root override `""`, root resolution
proceeds to marker-based discovery. -/
theorem c10_empty_override_is_absent (env : Env) (resolvePath : String → Dir)
    (fs : FileSystem) (cwd : Dir) (torchProbe : Option Bool) :
    (env.device = some "" →
      detectDevice env torchProbe = detectDevice { env with device := none } torchProbe)
    ∧ (env.device = some "" → torchProbe = none →
      detectDevice env torchProbe = "cpu")
    ∧ (env.root_path = some "" →
      configRoot env resolvePath fs cwd = discoverCodebaseRoot fs cwd) := by
  refine ⟨fun hd => ?_, fun hd ht => ?_, fun hr => ?_⟩
  · simp [detectDevice, truthy, hd]
  · simp [detectDevice, truthy, hd, ht]
  · simp [configRoot, truthy, hr]

/-- Witness for C10: with both overrides set to `""` and torch missing,
the device is the default `"cpu"` and the root comes from discovery. -/
theorem c10_witness :
    detectDevice ⟨some "", none, some "", none⟩ none = "cpu" ∧
    configRoot ⟨some "", none, some "", none⟩ (fun _ => ["override"]) noMarkerFS [] =
      discoverCodebaseRoot noMarkerFS [] :=
  ⟨(c10_empty_override_is_absent ⟨some "", none, some "", none⟩ (fun _ => ["override"])
      noMarkerFS [] none).2.1 rfl rfl,
    (c10_empty_override_is_absent ⟨some "", none, some "", none⟩ (fun _ => ["override"])
      noMarkerFS [] none).2.2 rfl⟩

/-- C6: a file whose content cannot be decoded as text (the read raises
`UnicodeDecodeError`, modelled by a `none` read result) or whose trimmed
content is empty makes `process_file` return normally with zero chunks and
zero declared rows; the decode error is caught inside `process_file`
(totality of the model: no error reaches the caller of the pass). -/
theorem c6_undecodable_or_empty_zero_rows (hash : String → Int)
    (embed : String → List ℚ) (detectLang : String → Option String)
    (split : Splitter) (f : FileInput)
    (h : f.readResult = none ∨ ∃ c, f.readResult = some c ∧ pyStrip c = "") :
    process_file hash embed detectLang split f = [] := by
  rcases h with h | ⟨c, hc, hs⟩
  · simp [process_file, h]
  · simp [process_file, hc, hs]

/-- Witness for C6: a binary (undecodable) file and a whitespace-only file
both produce zero rows. -/
theorem c6_witness :
    process_file (fun s => (s.data.length : Int)) (fun _ => [])
      (fun _ => some "python")
      (fun c _ _ _ _ => [{ text := c, startLine := 1, endLine := 1 }])
      { path := "logo.png.py", name := "logo.png.py", readResult := none } = [] ∧
    process_file (fun s => (s.data.length : Int)) (fun _ => [])
      (fun _ => some "python")
      (fun c _ _ _ _ => [{ text := c, startLine := 1, endLine := 1 }])
      { path := "blank.py", name := "blank.py", readResult := some "  \n " } = [] :=
  ⟨c6_undecodable_or_empty_zero_rows _ _ _ _ _ (Or.inl rfl),
    c6_undecodable_or_empty_zero_rows _ _ _ _ _ (Or.inr ⟨"  \n ", rfl, by decide⟩)⟩

/-- C2: every row `process_file` declares carries as id the
content-addressed hash of its own chunk text, so two rows with identical
chunk text — whether from the same file, different files, or different
runs (the model is a pure function of its inputs) — receive the same id,
independent of file path and chunk position. -/
theorem c2_content_addressed_ids (hash : String → Int) (embed : String → List ℚ)
    (detectLang : String → Option String) (split : Splitter)
    (f1 f2 : FileInput) (r1 r2 : CodeChunkRow)
    (h1 : r1 ∈ process_file hash embed detectLang split f1)
    (h2 : r2 ∈ process_file hash embed detectLang split f2)
    (heq : r1.content = r2.content) :
    r1.id = hash r1.content ∧ r2.id = hash r2.content ∧ r1.id = r2.id := by
  have key : ∀ (f : FileInput) (r : CodeChunkRow),
      r ∈ process_file hash embed detectLang split f → r.id = hash r.content := by
    intro f r hr
    unfold process_file at hr
    rcases hf : f.readResult with _ | content
    · rw [hf] at hr
      simp at hr
    · rw [hf] at hr
      by_cases hs : pyStrip content = ""
      · simp [hs] at hr
      · simp only [hs, if_false, List.mem_map] at hr
        obtain ⟨c, _, rfl⟩ := hr
        rfl
  have k1 := key f1 r1 h1
  have k2 := key f2 r2 h2
  exact ⟨k1, k2, by rw [k1, k2, heq]⟩

/-- Witness for C2: the chunk text `"dup"` appearing in two different
files yields rows with the same id in both. -/
theorem c2_witness :
    ({ id := 3, file_path := "a.py", language := "python", content := "dup",
        start_line := 1, end_line := 1, embedding := [] } : CodeChunkRow) ∈
      process_file (fun s => (s.data.length : Int)) (fun _ => [])
        (fun _ => some "python")
        (fun c _ _ _ _ => [{ text := c, startLine := 1, endLine := 1 }])
        { path := "a.py", name := "a.py", readResult := some "dup" } ∧
    ({ id := 3, file_path := "lib/b.py", language := "python", content := "dup",
        start_line := 1, end_line := 1, embedding := [] } : CodeChunkRow) ∈
      process_file (fun s => (s.data.length : Int)) (fun _ => [])
        (fun _ => some "python")
        (fun c _ _ _ _ => [{ text := c, startLine := 1, endLine := 1 }])
        { path := "lib/b.py", name := "b.py", readResult := some "dup" } ∧
    (3 : Int) = (fun s => (s.data.length : Int)) "dup" ∧ (3 : Int) = 3 :=
  ⟨by decide, by decide,
    (c2_content_addressed_ids (fun s => (s.data.length : Int)) (fun _ => [])
        (fun _ => some "python")
        (fun c _ _ _ _ => [{ text := c, startLine := 1, endLine := 1 }])
        { path := "a.py", name := "a.py", readResult := some "dup" }
        { path := "lib/b.py", name := "b.py", readResult := some "dup" }
        { id := 3, file_path := "a.py", language := "python", content := "dup",
          start_line := 1, end_line := 1, embedding := [] }
        { id := 3, file_path := "lib/b.py", language := "python", content := "dup",
          start_line := 1, end_line := 1, embedding := [] }
        (by decide) (by decide) rfl).1,
    (c2_content_addressed_ids (fun s => (s.data.length : Int)) (fun _ => [])
        (fun _ => some "python")
        (fun c _ _ _ _ => [{ text := c, startLine := 1, endLine := 1 }])
        { path := "a.py", name := "a.py", readResult := some "dup" }
        { path := "lib/b.py", name := "b.py", readResult := some "dup" }
        { id := 3, file_path := "a.py", language := "python", content := "dup",
          start_line := 1, end_line := 1, embedding := [] }
        { id := 3, file_path := "lib/b.py", language := "python", content := "dup",
          start_line := 1, end_line := 1, embedding := [] }
        (by decide) (by decide) rfl).2.2⟩

/-- Counterexample for C7: with the trust-remote-code environment opt-in
absent (so the resolved config flag is false), the model
`sbert/nomic-ai/CodeRankEmbed` is nevertheless given to the local backend
with `trust_remote_code = true`, because `shared.py` OR-s the opt-in with
its known-remote-code allow list. -/
theorem c7_counterexample :
    envNomic.trust_remote_code = none ∧
    cfgNomic.trust_remote_code = false ∧
    trustFlagOf (mkEmbedder cfgNomic) = some true :=
  ⟨rfl, by decide, by decide⟩

/-- C7 (amended): the trust-remote-code flag passed to the local embedding
backend is the environment opt-in OR-ed with membership of the stripped
model name in the known-remote-code set; so with the opt-in absent or
falsy the flag is true exactly for the known-remote-code models, and for
every other model it is false. -/
theorem c7_trust_flag_amended (env : Env) (resolvePath : String → Dir)
    (fs : FileSystem) (cwd : Dir) (torchProbe : Option Bool) (e : LocalEmbedder)
    (hbe : mkEmbedder (configFromEnv env resolvePath fs cwd torchProbe) =
      .localBackend e) :
    e.trust_remote_code =
      (isTruthSetting ((env.trust_remote_code).getD "")
        || KNOWN_REMOTE_CODE_MODELS.contains e.model_name_or_path) := by
  by_cases hp : pyStartsWith (configFromEnv env resolvePath fs cwd torchProbe).embedding_model
      SBERT_TAG = true
  · simp only [mkEmbedder, hp, if_true, Embedder.localBackend.injEq] at hbe
    subst hbe
    simp [configFromEnv]
  · simp [mkEmbedder, hp] at hbe

/-- Witness for C7 (amended): instantiated at the unset-opt-in environment
for `sbert/nomic-ai/CodeRankEmbed`. -/
theorem c7_witness :
    mkEmbedder (configFromEnv envNomic (fun _ => []) noMarkerFS [] none) =
      .localBackend eNomic ∧
    eNomic.trust_remote_code =
      (isTruthSetting ((envNomic.trust_remote_code).getD "")
        || KNOWN_REMOTE_CODE_MODELS.contains eNomic.model_name_or_path) :=
  ⟨by decide,
    c7_trust_flag_amended envNomic (fun _ => []) noMarkerFS [] none eNomic (by decide)⟩

/-- C8 evidence: the embedding service's maximum batch size is the
decorator constant 16 for every resolved configuration — `Config.from_env`
reads no batch-size variable (the `Env` record lists every variable the
source reads) and the `Config` record carries no batch-size field, contrary
to the repository's own tests, which assert a `batch_size` field fed by
`COCOINDEX_CODE_BATCH_SIZE`. -/
theorem c8_batch_size_constant :
    ∀ (env : Env) (resolvePath : String → Dir) (fs : FileSystem) (cwd : Dir)
      (torchProbe : Option Bool),
      embedMaxBatchSizeOf (configFromEnv env resolvePath fs cwd torchProbe) =
        EMBED_MAX_BATCH_SIZE :=
  fun _ _ _ _ _ => rfl

/-- C9: `_get_connection` raises the "index not found" precondition error
exactly when no connection is cached and the database file is absent; after
any successful call the querier caches a connection, so every later call
succeeds even with the database file gone; `close` drops the cache, after
which a call with the database absent errors again. -/
theorem c9_connection_check_only_first (q : CodebaseQuerier) (dbExists : Bool)
    (fresh : Nat) :
    ((∃ msg, queryConnStep q dbExists fresh = .error msg) ↔
      (q.conn = none ∧ dbExists = false))
    ∧ (∀ q', queryConnStep q dbExists fresh = .ok q' →
        ∀ (e2 : Bool) (f2 : Nat), ∃ q'', queryConnStep q' e2 f2 = .ok q'')
    ∧ (queryConnStep (closeQuerier q) false fresh =
        .error "Index database not found") := by
  obtain ⟨co⟩ := q
  refine ⟨⟨?_, ?_⟩, ?_, ?_⟩
  · rintro ⟨msg, hm⟩
    cases co with
    | none =>
      cases dbExists with
      | true => simp [queryConnStep, getConnection, Except.map] at hm
      | false => exact ⟨rfl, rfl⟩
    | some c => simp [queryConnStep, getConnection, Except.map] at hm
  · rintro ⟨h1, h2⟩
    cases co with
    | none =>
      subst h2
      exact ⟨"Index database not found",
        by simp [queryConnStep, getConnection, Except.map]⟩
    | some c => simp at h1
  · intro q' hok e2 f2
    have hq' : ∃ c, q'.conn = some c := by
      cases co with
      | none =>
        cases dbExists with
        | true =>
          simp only [queryConnStep, getConnection, Except.map] at hok
          exact ⟨fresh, by rw [← Except.ok.inj hok]⟩
        | false => simp [queryConnStep, getConnection, Except.map] at hok
      | some c =>
        simp only [queryConnStep, getConnection, Except.map] at hok
        exact ⟨c, by rw [← Except.ok.inj hok]⟩
    obtain ⟨c, hc⟩ := hq'
    obtain ⟨co'⟩ := q'
    simp only at hc
    subst hc
    exact ⟨{ conn := some c }, by simp [queryConnStep, getConnection, Except.map]⟩
  · simp [queryConnStep, getConnection, closeQuerier, Except.map]

/-- Witness for C9: a first query with the database present succeeds and
caches the connection; a later query on the cached connection succeeds with
the database file deleted. -/
theorem c9_witness :
    queryConnStep { conn := none } true 5 = .ok { conn := some 5 } ∧
    (∃ q'', queryConnStep { conn := some 5 } false 7 = .ok q'') :=
  ⟨rfl,
    (c9_connection_check_only_first { conn := none } true 5).2.1
      { conn := some 5 } rfl false 7⟩

/-- C1 evidence: for the asymmetric model `nomic-ai/CodeRankEmbed`, the
embedder `shared.py` constructs carries `query_prompt_name = "query"`, yet
the query engine's embedding call (`query.py` line 51 uses `embed`, not
`embed_query`) passes no prompt to the encoder — it differs from the
query-side path the claim (and the spec) describe. -/
theorem c1_query_uses_document_path :
    mkEmbedder cfgNomic = .localBackend eNomic ∧
    eNomic.query_prompt_name = some "query" ∧
    querierEmbedArgs eNomic "user authentication" =
      { texts := ["user authentication"], prompt_name := none,
        normalize_embeddings := true } ∧
    querierEmbedArgs eNomic "user authentication" ≠
      eNomic.embedQueryArgs ["user authentication"] :=
  ⟨by decide, rfl, rfl, by decide⟩

/-- Arithmetic step of the Cauchy-Schwarz induction: extending both vectors
by one coordinate preserves the inequality. -/
theorem cs_step (x y d s t : ℚ) (hd : d^2 ≤ s*t) (hs : 0 ≤ s) (ht : 0 ≤ t) :
    (x*y + d)^2 ≤ (x*x + s)*(y*y + t) := by
  rcases eq_or_lt_of_le ht with h0 | hpos
  · have hd0 : d = 0 := by
      have hle : d^2 ≤ 0 := by rw [← h0] at hd; linarith [hd]
      exact pow_eq_zero_iff (n := 2) (by norm_num) |>.mp (le_antisymm hle (sq_nonneg d))
    subst hd0
    rw [← h0]
    nlinarith [mul_nonneg hs (mul_self_nonneg y)]
  · have key : t * ((x*x + s)*(y*y + t) - (x*y + d)^2) =
        (x*t - y*d)^2 + (y*y + t)*(s*t - d^2) := by ring
    have h1 : 0 ≤ (x*t - y*d)^2 + (y*y + t)*(s*t - d^2) :=
      add_nonneg (sq_nonneg _)
        (mul_nonneg (by nlinarith [mul_self_nonneg y]) (by linarith))
    have h2 : 0 ≤ t * ((x*x + s)*(y*y + t) - (x*y + d)^2) := key ▸ h1
    nlinarith [h2, hpos]

/-- Dot product against the empty vector is zero. -/
theorem dot_nil_right (a : List ℚ) : dot a [] = 0 := by
  cases a <;> simp [dot]

/-- A vector's dot product with itself is nonnegative. -/
theorem dot_self_nonneg (a : List ℚ) : 0 ≤ dot a a := by
  induction a with
  | nil => simp [dot]
  | cons x xs ih =>
    simp only [dot, List.zipWith_cons_cons, List.sum_cons] at *
    nlinarith [mul_self_nonneg x]

/-- Cauchy-Schwarz for the list dot product. -/
theorem dot_sq_le (a : List ℚ) : ∀ b : List ℚ, (dot a b) ^ 2 ≤ dot a a * dot b b := by
  induction a with
  | nil => intro b; simp [dot]
  | cons x xs ih =>
    intro b
    cases b with
    | nil => simp [dot_nil_right, dot]
    | cons y ys =>
      have h := ih ys
      have hxs := dot_self_nonneg xs
      have hys := dot_self_nonneg ys
      simp only [dot, List.zipWith_cons_cons, List.sum_cons] at *
      exact cs_step x y _ _ _ h hxs hys

/-- For unit-norm vectors the dot product lies in `[-1, 1]`. -/
theorem dot_abs_le_one (a b : List ℚ) (ha : dot a a = 1) (hb : dot b b = 1) :
    -1 ≤ dot a b ∧ dot a b ≤ 1 := by
  have h := dot_sq_le a b
  rw [ha, hb] at h
  constructor <;> nlinarith [h]

/-- The store scan ordered by the SQL `ORDER BY ... ASC` comparison is
sorted by ascending cosine distance. -/
theorem mergeSort_distLE_sorted (store : List StoredRow) (qvec : List ℚ) :
    (store.mergeSort (distLE qvec)).Pairwise (fun a b => distLE qvec a b = true) :=
  List.sorted_mergeSort
    (fun a b c hab hbc => by
      simp only [distLE, decide_eq_true_eq] at *
      exact le_trans hab hbc)
    (fun a b => by
      simp only [distLE]
      rcases le_total (vec_distance_cosine a.embedding qvec)
        (vec_distance_cosine b.embedding qvec) with h | h <;> simp [h])
    store

/-- C4: query results are sorted descending by score; every result arises
from a stored row and its score is 1 minus that row's cosine distance to
the query vector; on a store of unit-norm embeddings, with a unit-norm
query vector, every returned score lies in `[-1, 1]`; and the `(lim, off)`
page equals the first `off + lim` results with the first `off` dropped —
the offset is applied before the limit. -/
theorem c4_query_order_offset_scores (store : List StoredRow) (qvec : List ℚ)
    (lim off : Nat)
    (hstore : ∀ r ∈ store, dot r.embedding r.embedding = 1)
    (hq : dot qvec qvec = 1) :
    (queryRows store qvec lim off).Pairwise (fun a b => b.score ≤ a.score)
    ∧ (∀ res ∈ queryRows store qvec lim off,
        ∃ r ∈ store, res = rowResult qvec r ∧
          res.score = 1 - vec_distance_cosine r.embedding qvec)
    ∧ (∀ res ∈ queryRows store qvec lim off, -1 ≤ res.score ∧ res.score ≤ 1)
    ∧ queryRows store qvec lim off = (queryRows store qvec (off + lim) 0).drop off := by
  have hmem : ∀ res ∈ queryRows store qvec lim off,
      ∃ r ∈ store, res = rowResult qvec r ∧
        res.score = 1 - vec_distance_cosine r.embedding qvec := by
    intro res hres
    rw [queryRows, List.mem_map] at hres
    obtain ⟨r, hr, rfl⟩ := hres
    have hr1 : r ∈ (store.mergeSort (distLE qvec)).drop off :=
      (List.take_sublist lim _).subset hr
    have hr2 : r ∈ store.mergeSort (distLE qvec) :=
      (List.drop_sublist off _).subset hr1
    have hr3 : r ∈ store := (List.mergeSort_perm store (distLE qvec)).mem_iff.mp hr2
    exact ⟨r, hr3, rfl, rfl⟩
  refine ⟨?_, hmem, ?_, ?_⟩
  · have hdt : ((store.mergeSort (distLE qvec)).drop off).Pairwise
        (fun a b => distLE qvec a b = true) :=
      List.Pairwise.sublist (List.drop_sublist off _) (mergeSort_distLE_sorted store qvec)
    have htk : (((store.mergeSort (distLE qvec)).drop off).take lim).Pairwise
        (fun a b => distLE qvec a b = true) :=
      List.Pairwise.sublist (List.take_sublist lim _) hdt
    rw [queryRows, List.pairwise_map]
    refine htk.imp ?_
    intro a b hab
    simp only [distLE, decide_eq_true_eq] at hab
    simp only [rowResult]
    linarith
  · intro res hres
    obtain ⟨r, hr, rfl, hscore⟩ := hmem res hres
    have hb := dot_abs_le_one r.embedding qvec (hstore r hr) hq
    have hs : (rowResult qvec r).score = dot r.embedding qvec := by
      simp only [rowResult, vec_distance_cosine]
      ring
    rw [hs]
    exact hb
  · rw [queryRows, queryRows, List.drop_zero, ← List.map_drop, List.drop_take]
    simp

/-- Witness for C4: a two-row store of unit vectors queried with a unit
vector; the result page is sorted descending by score. -/
theorem c4_witness :
    (∀ r ∈ storeW, dot r.embedding r.embedding = 1)
    ∧ dot [(1 : ℚ), 0] [(1 : ℚ), 0] = 1
    ∧ (queryRows storeW [(1 : ℚ), 0] 10 0).Pairwise
        (fun a b => b.score ≤ a.score) := by
  refine ⟨?_, ?_, ?_⟩
  · simp [storeW, dot]
  · simp [dot]
  · exact (c4_query_order_offset_scores storeW [(1 : ℚ), 0] 10 0
      (by simp [storeW, dot]) (by simp [dot])).1

/-- Every unit record carries the unit's own path as key and its own
`FileInput` as fingerprint, whatever the prior memo state held. -/
theorem runUnit_fst (proc : FileInput → List CodeChunkRow) (st : MemoState)
    (f : FileInput) :
    (runUnit proc st f).1.1 = f.path ∧ (runUnit proc st f).1.2.1 = f := by
  unfold runUnit
  cases h : st.lookup f.path with
  | none => simp
  | some pr =>
    obtain ⟨fp, rows⟩ := pr
    by_cases hfp : fp = f <;> simp [hfp]

/-- Association lookup over per-file records keyed by distinct paths finds
the record of the looked-up file. -/
theorem lookup_map_path {β : Type} (g : FileInput → β) :
    ∀ (tree : List FileInput) (f : FileInput), f ∈ tree →
      (tree.map FileInput.path).Nodup →
      (tree.map (fun x => (x.path, g x))).lookup f.path = some (g f) := by
  intro tree
  induction tree with
  | nil => intro f hf _; simp at hf
  | cons x rest ih =>
    intro f hf hnd
    rcases List.mem_cons.mp hf with rfl | hf2
    · simp [List.lookup]
    · have hnd2 : x.path ∉ rest.map FileInput.path ∧ (rest.map FileInput.path).Nodup := by
        rw [List.map_cons] at hnd
        exact List.nodup_cons.mp hnd
      have hx : (f.path == x.path) = false := by
        apply beq_eq_false_iff_ne.mpr
        intro hEq
        exact hnd2.1 (hEq ▸ List.mem_map_of_mem FileInput.path hf2)
      simp only [List.map_cons, List.lookup, hx]
      exact ih f hf2 hnd2.2

/-- C3: running the builder pass twice on an unchanged file tree (with the
distinct per-file unit keys the walker produces) performs zero writes the
second time — every unit is a memo hit replaying its recorded rows, so no
row is declared anew, none is overwritten, and the unchanged declared-id
set means the engine deletes nothing. -/
theorem c3_second_pass_zero_writes (proc : FileInput → List CodeChunkRow)
    (tree : List FileInput) (st0 : MemoState)
    (hnd : (tree.map FileInput.path).Nodup) :
    (runPass proc tree (runPass proc tree st0).1).2 = 0 := by
  set st1 := (runPass proc tree st0).1 with hst1
  have hst1eq : st1 = tree.map (fun f => (f.path, f, (runUnit proc st0 f).1.2.2)) := by
    rw [hst1]
    simp only [runPass, List.map_map]
    apply List.map_congr_left
    intro f _
    obtain ⟨h1, h2⟩ := runUnit_fst proc st0 f
    exact Prod.ext_iff.mpr ⟨h1, Prod.ext_iff.mpr ⟨h2, rfl⟩⟩
  have hhit : ∀ f ∈ tree,
      runUnit proc st1 f = ((f.path, f, (runUnit proc st0 f).1.2.2), 0) := by
    intro f hf
    have hlk : st1.lookup f.path = some (f, (runUnit proc st0 f).1.2.2) := by
      rw [hst1eq]
      exact lookup_map_path (fun x => (x, (runUnit proc st0 x).1.2.2)) tree f hf hnd
    unfold runUnit
    rw [hlk]
    simp only [if_pos rfl]
    rfl
  have hups : ((tree.map (runUnit proc st1)).map (fun u => u.2)).sum = 0 := by
    apply List.sum_eq_zero
    intro x hx
    rw [List.map_map] at hx
    obtain ⟨f, hf, rfl⟩ := List.mem_map.mp hx
    simp [hhit f hf]
  have hstate : (tree.map (runUnit proc st1)).map (fun u => u.1) = st1 := by
    rw [List.map_map]
    conv_rhs => rw [hst1eq]
    apply List.map_congr_left
    intro f hf
    simp [hhit f hf]
  have hdel : ∀ l : List Int, (l.filter (fun i => !l.contains i)).length = 0 := by
    intro l
    rw [List.length_eq_zero, List.filter_eq_nil_iff]
    intro a ha
    simp [ha]
  simp only [runPass, hups, hstate, hdel, Nat.add_zero, Nat.zero_add]

/-- Witness for C3: indexing the concrete two-file tree twice from an empty
memo state performs zero writes on the second pass. -/
theorem c3_witness :
    (treeW.map FileInput.path).Nodup ∧
    (runPass
        (process_file (fun s => (s.data.length : Int)) (fun _ => [])
          (fun _ => some "python")
          (fun c _ _ _ _ => [{ text := c, startLine := 1, endLine := 1 }]))
        treeW
        (runPass
          (process_file (fun s => (s.data.length : Int)) (fun _ => [])
            (fun _ => some "python")
            (fun c _ _ _ _ => [{ text := c, startLine := 1, endLine := 1 }]))
          treeW []).1).2 = 0 :=
  ⟨by decide,
    c3_second_pass_zero_writes
      (process_file (fun s => (s.data.length : Int)) (fun _ => [])
        (fun _ => some "python")
        (fun c _ _ _ _ => [{ text := c, startLine := 1, endLine := 1 }]))
      treeW [] (by decide)⟩
